import Mathlib

/-!
Shallow embedding of src/src/signal_type.rs: the SignalType enum with its
string conversions, and the shared signal-generator record with the
shrink_to_fit quantization routine, the noise routine, and the five
per-variant calculate functions.

Modelling conventions:
  - Rust f32 values are embedded as rationals; every concrete value used in
    the theorems below is exactly representable in f32, so the rational
    arithmetic agrees with the float arithmetic of the source.
  - Rust f32 round, which rounds to the nearest integer with ties away from
    zero, is embedded as roundAway.
  - The Rust float remainder x % p is exact on exact operands; for p = 0 it
    yields NaN, embedded as Option.none, and a NaN comparison is false.
  - Rust panics (the unwrap in parse, the clamp assertion when minimum
    exceeds maximum, and the checked i64 range computation of shrink_to_fit
    underflowing or overflowing) are embedded as Option.none.
  - The random draw of rand gen_range(low..high) on floats, which is
    uniform in the half-open interval from low inclusive to high exclusive,
    is embedded by passing the unit draw r, with 0 <= r < 1, explicitly and
    returning low + r * (high - low).
-/

/-- The five signal kinds of the SignalType enum, in declaration order. -/
inductive SignalType where
  | Sine
  | Square
  | Triangle
  | Sawtooth
  | Constant
deriving DecidableEq, Repr

/-- Embeds SignalType::to_string, the match returning the canonical name. -/
def SignalType.to_string : SignalType → String
  | SignalType.Sine => "Sine"
  | SignalType.Square => "Square"
  | SignalType.Triangle => "Triangle"
  | SignalType.Sawtooth => "Sawtooth"
  | SignalType.Constant => "Constant"

/-- Embeds SignalType::parse, which is SignalType::from_str(string).unwrap().
The strum EnumString derive matches the exact, case-sensitive variant name;
the unwrap panic on an unrecognized name is embedded as none. -/
def SignalType.parse (string : String) : Option SignalType :=
  if string = "Sine" then some SignalType.Sine
  else if string = "Square" then some SignalType.Square
  else if string = "Triangle" then some SignalType.Triangle
  else if string = "Sawtooth" then some SignalType.Sawtooth
  else if string = "Constant" then some SignalType.Constant
  else none

/-- Embeds SignalType::from_string, whose body is identical to parse:
SignalType::from_str(string).unwrap(). -/
def SignalType.from_string (string : String) : Option SignalType :=
  if string = "Sine" then some SignalType.Sine
  else if string = "Square" then some SignalType.Square
  else if string = "Triangle" then some SignalType.Triangle
  else if string = "Sawtooth" then some SignalType.Sawtooth
  else if string = "Constant" then some SignalType.Constant
  else none

/-- Embeds get_signal_types, collecting the EnumIter iterator. -/
def get_signal_types : List SignalType :=
  [SignalType.Sine, SignalType.Square, SignalType.Triangle,
   SignalType.Sawtooth, SignalType.Constant]

/-- C4: for every input string that is none of the five canonical names,
parse fails (the from_str result is an error and the unwrap panics, embedded
as none); it never returns a SignalType for an unrecognized name. -/
theorem C4_parse_rejects_unrecognized (s : String)
    (h1 : s ≠ "Sine") (h2 : s ≠ "Square") (h3 : s ≠ "Triangle")
    (h4 : s ≠ "Sawtooth") (h5 : s ≠ "Constant") :
    SignalType.parse s = none := by
  simp only [SignalType.parse, if_neg h1, if_neg h2, if_neg h3, if_neg h4, if_neg h5]

/-- Witness for C4 at the concrete lowercase input sine, which is not a
case-sensitive match for any canonical name. -/
theorem C4_parse_rejects_unrecognized_witness : SignalType.parse "sine" = none :=
  C4_parse_rejects_unrecognized "sine" (by decide) (by decide) (by decide)
    (by decide) (by decide)

/-- C9: parsing the canonical name returned by to_string yields the same
kind again, for each of the five kinds. -/
theorem C9_name_roundtrip (k : SignalType) :
    SignalType.parse (SignalType.to_string k) = some k := by
  cases k <;> rfl

/-- C10: the two parsing entry points are extensionally equal: parse and
from_string agree on every input string, both on the canonical names and in
failing on anything else. -/
theorem C10_parse_eq_from_string (s : String) :
    SignalType.parse s = SignalType.from_string s := rfl

/-- Embeds Rust f32 round: round to the nearest integer, ties away from
zero. -/
def roundAway (q : ℚ) : ℤ :=
  if q < 0 then -⌊-q + 1/2⌋ else ⌊q + 1/2⌋

/-- Truncation toward zero, the rounding used by the Rust float remainder. -/
def truncQ (q : ℚ) : ℤ :=
  if q < 0 then -⌊-q⌋ else ⌊q⌋

/-- Embeds the Rust f32 remainder x % p, which equals x - p * trunc(x / p)
on exact operands; for p = 0 the remainder is NaN, embedded as none. -/
def fmodQ (x p : ℚ) : Option ℚ :=
  if p = 0 then none else some (x - p * (truncQ (x / p) : ℚ))

/-- Embeds an f32 comparison whose left operand may be NaN: a NaN
comparison is false. -/
def nanLt (x : Option ℚ) (y : ℚ) : Bool :=
  match x with
  | none => false
  | some q => decide (q < y)

/-- Embeds f32 clamp(lo, hi): it asserts lo <= hi (panic embedded as none)
and otherwise moves the value into the closed interval. -/
def rustClamp (x lo hi : ℚ) : Option ℚ :=
  if lo ≤ hi then some (if x < lo then lo else if hi < x then hi else x)
  else none

/-- Embeds the static NOISE constant of the noise method. -/
def NOISE : ℚ := 1/10

/-- Embeds the noise method, rng.gen_range(-NOISE..NOISE): the rand range
low..high on floats samples uniformly in the half-open interval from low
inclusive to high exclusive, embedded as low + r * (high - low) for an
explicit unit draw r with 0 <= r < 1. -/
def noise (r : ℚ) : ℚ :=
  -NOISE + r * (NOISE - -NOISE)

/-- The field layout shared by the five generator structs produced by the
signal_type_struct macro: minimum, maximum, amplitude, period, phase,
num_bits, is_signed, scale, offset. -/
structure SignalGen where
  minimum : ℚ
  maximum : ℚ
  amplitude : ℚ
  period : ℚ
  phase : ℚ
  num_bits : ℕ
  is_signed : Bool
  scale : ℚ
  offset : ℚ

/-- Embeds Signal::shrink_to_fit. The value is clamped by max-then-min to
the minimum and maximum fields, divided by scale, shifted by offset,
rounded, clamped to the i64 code range computed from num_bits and
is_signed, re-expanded through offset and scale and rounded again. The i64
range computation panics (none) when the checked arithmetic fails: for the
signed branch num_bits = 0 underflows num_bits - 1 and num_bits >= 64
overflows the power, and for the unsigned branch num_bits >= 63 overflows
the power. -/
def SignalGen.shrink_to_fit (g : SignalGen) (value : ℚ) : Option ℤ :=
  let clamped := min (max value g.minimum) g.maximum
  let scaled := clamped / g.scale
  let unrounded := scaled - g.offset
  let code := roundAway unrounded
  if (g.is_signed = true ∧ (g.num_bits = 0 ∨ 64 ≤ g.num_bits)) ∨
      (g.is_signed = false ∧ 63 ≤ g.num_bits) then none
  else
    let max_value : ℤ :=
      if g.is_signed then 2 ^ (g.num_bits - 1) - 1 else 2 ^ g.num_bits - 1
    let min_value : ℤ :=
      if g.is_signed then -(2 ^ (g.num_bits - 1)) else 0
    let clamped2 := min (max code min_value) max_value
    some (roundAway (((clamped2 : ℚ) + g.offset) * g.scale))

/-- Embeds Sine::calculate. The f32 evaluation of sin(b * (time + c)) with
b = 2 pi / period and c = phase is transcendental, so it is passed as the
explicit oracle s; the noise draw of self.noise() is passed as n. The
source computes value = a * (s + n) with a the amplitude, clamps it to the
minimum and maximum, and calls shrink_to_fit. -/
def SignalGen.sineCalculate (g : SignalGen) (s n : ℚ) : Option ℤ :=
  let a := g.amplitude
  let value := a * (s + n)
  (rustClamp value g.minimum g.maximum).bind g.shrink_to_fit

/-- Embeds Square::calculate with the noise draw n passed explicitly: the
base value is amplitude when (time + phase) % period < period / 2, with the
NaN comparison for period 0 being false, and minus amplitude otherwise;
then noise times amplitude is added, the sum clamped and quantized. -/
def SignalGen.squareCalculate (g : SignalGen) (time n : ℚ) : Option ℤ :=
  let value := if nanLt (fmodQ (time + g.phase) g.period) (g.period / 2)
    then g.amplitude else -g.amplitude
  let value2 := value + n * g.amplitude
  (rustClamp value2 g.minimum g.maximum).bind g.shrink_to_fit

/-- Embeds Triangle::calculate with the noise draw n passed explicitly,
the piecewise waveform over t = (time + phase) % period. For period 0 the
remainder is NaN and the piecewise arithmetic propagates it; the embedding
returns none there and the Triangle theorems are stated for a defined
remainder. -/
def SignalGen.triangleCalculate (g : SignalGen) (time n : ℚ) : Option ℤ :=
  match fmodQ (time + g.phase) g.period with
  | none => none
  | some t =>
    let value := if t < 1/4 then g.amplitude * t * 4
      else if t < 3/4 then g.amplitude * (1 - (t - 1/4) * 4)
      else g.amplitude * (t - 3/4) * 4 - g.amplitude
    let value2 := value + n * g.amplitude
    (rustClamp value2 g.minimum g.maximum).bind g.shrink_to_fit

/-- Embeds Sawtooth::calculate with the noise draw n passed explicitly,
amplitude * (t * 2 - 1) over t = (time + phase) % period; none for period 0
as for Triangle. -/
def SignalGen.sawtoothCalculate (g : SignalGen) (time n : ℚ) : Option ℤ :=
  match fmodQ (time + g.phase) g.period with
  | none => none
  | some t =>
    let value := g.amplitude * (t * 2 - 1)
    let value2 := value + n * g.amplitude
    (rustClamp value2 g.minimum g.maximum).bind g.shrink_to_fit

/-- Embeds Constant::calculate, which ignores time: the base value is the
amplitude, then noise times amplitude is added, clamped and quantized. -/
def SignalGen.constantCalculate (g : SignalGen) (n : ℚ) : Option ℤ :=
  let value := g.amplitude
  let value2 := value + n * g.amplitude
  (rustClamp value2 g.minimum g.maximum).bind g.shrink_to_fit

/-- Rounding ties away from zero fixes every integer. -/
theorem roundAway_intCast (z : ℤ) : roundAway (z : ℚ) = z := by
  unfold roundAway
  by_cases h : (z : ℚ) < 0
  · rw [if_pos h, show -(z : ℚ) = ((-z : ℤ) : ℚ) by push_cast; ring,
      Int.floor_int_add]
    norm_num
  · rw [if_neg h, Int.floor_int_add]
    norm_num

/-- The max-then-min clamp of the source equals the interval clamp whenever
the bounds are ordered. -/
theorem clamp_minmax_eq {α : Type} [LinearOrder α] (x lo hi : α) (h : lo ≤ hi) :
    min (max x lo) hi = if x < lo then lo else if hi < x then hi else x := by
  rcases lt_or_le x lo with hx | hx
  · rw [if_pos hx, max_eq_right hx.le, min_eq_left h]
  · rw [if_neg (not_lt.mpr hx), max_eq_left hx]
    rcases lt_or_le hi x with hy | hy
    · rw [if_pos hy, min_eq_right hy.le]
    · rw [if_neg (not_lt.mpr hy), min_eq_left hy]

/-- A standard well-formed generator used to instantiate witnesses:
minimum 0, maximum 10, amplitude 5, period 1, phase 0, 8 unsigned bits,
scale 1, offset 0. -/
def gStd : SignalGen :=
  { minimum := 0, maximum := 10, amplitude := 5, period := 1, phase := 0,
    num_bits := 8, is_signed := false, scale := 1, offset := 0 }

/-- C1: for every generator whose bit width keeps the i64 range computation
in bounds and whose clamp bounds are ordered, shrink_to_fit computes, in
this order: clamp the value to the minimum-maximum interval, divide by
scale, subtract offset, round ties away from zero to obtain the code, clamp
the code to the signed or unsigned representable range, and return the
rounding of (code + offset) * scale. -/
theorem C1_shrink_to_fit_pipeline (g : SignalGen) (v : ℚ)
    (hmm : g.minimum ≤ g.maximum)
    (hs : g.is_signed = true → 1 ≤ g.num_bits ∧ g.num_bits ≤ 63)
    (hu : g.is_signed = false → g.num_bits ≤ 62) :
    g.shrink_to_fit v =
      some (
        let clamped := if v < g.minimum then g.minimum
          else if g.maximum < v then g.maximum else v;
        let code := roundAway (clamped / g.scale - g.offset);
        let lo : ℤ := if g.is_signed then -(2 ^ (g.num_bits - 1)) else 0;
        let hi : ℤ := if g.is_signed then 2 ^ (g.num_bits - 1) - 1
          else 2 ^ g.num_bits - 1;
        let code2 := if code < lo then lo else if hi < code then hi else code;
        roundAway (((code2 : ℚ) + g.offset) * g.scale)) := by
  have hguard : ¬((g.is_signed = true ∧ (g.num_bits = 0 ∨ 64 ≤ g.num_bits)) ∨
      (g.is_signed = false ∧ 63 ≤ g.num_bits)) := by
    rintro (⟨h1, h2⟩ | ⟨h1, h2⟩)
    · rcases hs h1 with ⟨ha, hb⟩
      omega
    · have := hu h1
      omega
  have hone : (0 : ℤ) < 2 ^ (g.num_bits - 1) := pow_pos (by norm_num) _
  have hone2 : (0 : ℤ) < 2 ^ g.num_bits := pow_pos (by norm_num) _
  have hcode_le : (if g.is_signed then -(2 ^ (g.num_bits - 1)) else 0 : ℤ) ≤
      (if g.is_signed then 2 ^ (g.num_bits - 1) - 1 else 2 ^ g.num_bits - 1) := by
    cases hsign : g.is_signed
    · simp only [Bool.false_eq_true, if_false]
      omega
    · simp only [if_true]
      omega
  simp only [SignalGen.shrink_to_fit]
  rw [if_neg hguard, clamp_minmax_eq v g.minimum g.maximum hmm,
    clamp_minmax_eq _ _ _ hcode_le]

/-- Witness for C1: instantiating the pipeline theorem at the standard
generator and value 5 and evaluating both sides yields 5. -/
theorem C1_shrink_to_fit_pipeline_witness : gStd.shrink_to_fit 5 = some 5 := by
  have h := C1_shrink_to_fit_pipeline gStd 5 (by norm_num [gStd])
    (by decide) (by decide)
  rw [h]
  norm_num [gStd, roundAway]

/-- A generator with num_bits 0 on the unsigned branch: minimum 0,
maximum 10, amplitude 5, period 1, phase 0, scale 1, offset 0. -/
def gBits0U : SignalGen :=
  { minimum := 0, maximum := 10, amplitude := 5, period := 1, phase := 0,
    num_bits := 0, is_signed := false, scale := 1, offset := 0 }

/-- A generator with num_bits 0 on the signed branch. -/
def gBits0S : SignalGen :=
  { minimum := 0, maximum := 10, amplitude := 5, period := 1, phase := 0,
    num_bits := 0, is_signed := true, scale := 1, offset := 0 }

/-- C5 counterexample: with num_bits 0 and is_signed false, shrink_to_fit
is not rejected: it silently returns a result, the code being clamped into
the degenerate range from 0 to 0. -/
theorem C5_counterexample :
    gBits0U.num_bits = 0 ∧ gBits0U.is_signed = false ∧
      gBits0U.shrink_to_fit 5 = some 0 := by
  refine ⟨rfl, rfl, ?_⟩
  norm_num [SignalGen.shrink_to_fit, gBits0U, roundAway]

/-- C5 amended: num_bits 0 is rejected only on the signed branch, where
num_bits - 1 underflows and the checked subtraction panics; on the unsigned
branch the call silently succeeds, the code is clamped into the degenerate
range from 0 to 0, and the result is the rounding of (0 + offset) * scale. -/
theorem C5_num_bits_zero (g : SignalGen) (v : ℚ) (h0 : g.num_bits = 0) :
    (g.is_signed = true → g.shrink_to_fit v = none) ∧
      (g.is_signed = false →
        g.shrink_to_fit v = some (roundAway ((0 + g.offset) * g.scale))) := by
  constructor
  · intro hsign
    simp only [SignalGen.shrink_to_fit]
    rw [if_pos (Or.inl ⟨hsign, Or.inl h0⟩)]
  · intro hsign
    simp only [SignalGen.shrink_to_fit]
    rw [if_neg ?_]
    · simp only [hsign, Bool.false_eq_true, if_false, h0, pow_zero, sub_self,
        min_eq_right (le_max_right _ (0 : ℤ)), Int.cast_zero]
    · rintro (⟨h1, _⟩ | ⟨_, h2⟩)
      · rw [hsign] at h1
        cases h1
      · omega

/-- Witness for C5 amended: signed num_bits 0 yields none, unsigned
num_bits 0 silently yields some 0. -/
theorem C5_num_bits_zero_witness :
    gBits0S.shrink_to_fit 3 = none ∧ gBits0U.shrink_to_fit 3 = some 0 := by
  refine ⟨(C5_num_bits_zero gBits0S 3 rfl).1 rfl, ?_⟩
  have h := (C5_num_bits_zero gBits0U 3 rfl).2 rfl
  rw [h]
  norm_num [gBits0U, roundAway]

/-- A generator exhibiting quantization drift: scale 1 and offset one half
put re-expanded codes on rounding ties. -/
def gDrift : SignalGen :=
  { minimum := 0, maximum := 10, amplitude := 0, period := 1, phase := 0,
    num_bits := 8, is_signed := false, scale := 1, offset := 1/2 }

/-- C8 counterexample: the value five halves lies within the clamp bounds
of gDrift and sits exactly at the representable code 2, yet quantizing once
yields 3 and re-quantizing that output yields 4: repeated rounding drifts. -/
theorem C8_counterexample :
    gDrift.minimum ≤ (5/2 : ℚ) ∧ (5/2 : ℚ) ≤ gDrift.maximum ∧
      (5/2 : ℚ) / gDrift.scale - gDrift.offset = ((2 : ℤ) : ℚ) ∧
      gDrift.shrink_to_fit (5/2) = some 3 ∧
      gDrift.shrink_to_fit ((3 : ℤ) : ℚ) = some 4 ∧ (3 : ℤ) ≠ 4 := by
  norm_num [SignalGen.shrink_to_fit, gDrift, roundAway]

/-- C8 amended: quantization is idempotent for integer values within the
clamp bounds whose code is exactly a representable integer: shrink_to_fit
then returns the value itself, and re-applying it to that output returns
the same integer. -/
theorem C8_idempotent_on_integer_codes (g : SignalGen) (k c : ℤ)
    (hs : g.is_signed = true → 1 ≤ g.num_bits ∧ g.num_bits ≤ 63)
    (hu : g.is_signed = false → g.num_bits ≤ 62)
    (hscale : g.scale ≠ 0)
    (hlo : g.minimum ≤ (k : ℚ)) (hhi : (k : ℚ) ≤ g.maximum)
    (hcode : (k : ℚ) / g.scale - g.offset = (c : ℚ))
    (hcl : (if g.is_signed then -(2 ^ (g.num_bits - 1)) else 0 : ℤ) ≤ c)
    (hcu : c ≤ (if g.is_signed then 2 ^ (g.num_bits - 1) - 1
      else 2 ^ g.num_bits - 1)) :
    g.shrink_to_fit (k : ℚ) = some k ∧
      ∀ m : ℤ, g.shrink_to_fit (k : ℚ) = some m →
        g.shrink_to_fit (m : ℚ) = some m := by
  have hguard : ¬((g.is_signed = true ∧ (g.num_bits = 0 ∨ 64 ≤ g.num_bits)) ∨
      (g.is_signed = false ∧ 63 ≤ g.num_bits)) := by
    rintro (⟨h1, h2⟩ | ⟨h1, h2⟩)
    · rcases hs h1 with ⟨ha, hb⟩
      omega
    · have := hu h1
      omega
  have hexp : ((c : ℚ) + g.offset) * g.scale = (k : ℚ) := by
    rw [← hcode, sub_add_cancel, div_mul_cancel₀ _ hscale]
  have main : g.shrink_to_fit (k : ℚ) = some k := by
    simp only [SignalGen.shrink_to_fit]
    rw [if_neg hguard, max_eq_left hlo, min_eq_left hhi, hcode,
      roundAway_intCast, max_eq_left hcl, min_eq_left hcu, hexp,
      roundAway_intCast]
  refine ⟨main, fun m hm => ?_⟩
  rw [main] at hm
  injection hm with h
  rw [← h]
  exact main

/-- Witness for C8 amended: the standard generator at the integer value 5,
which sits at representable code 5, quantizes to itself. -/
theorem C8_idempotent_on_integer_codes_witness :
    gStd.shrink_to_fit ((5 : ℤ) : ℚ) = some 5 :=
  (C8_idempotent_on_integer_codes gStd 5 5 (by decide) (by decide)
    (by norm_num [gStd]) (by norm_num [gStd]) (by norm_num [gStd])
    (by norm_num [gStd]) (by decide) (by decide)).1

/-- C7: clamping precedes quantization: for ordered clamp bounds and any
value above the maximum, shrink_to_fit agrees with shrink_to_fit at the
maximum. -/
theorem C7_clamp_caps_before_quantization (g : SignalGen) (v : ℚ)
    (hmm : g.minimum ≤ g.maximum) (hv : g.maximum < v) :
    g.shrink_to_fit v = g.shrink_to_fit g.maximum := by
  have h1 : min (max v g.minimum) g.maximum = g.maximum := by
    rw [max_eq_left (hmm.trans hv.le), min_eq_right hv.le]
  have h2 : min (max g.maximum g.minimum) g.maximum = g.maximum := by
    rw [max_eq_left hmm, min_self]
  simp only [SignalGen.shrink_to_fit, h1, h2]

/-- Witness for C7: on the standard generator with maximum 10, the inputs
maximum + 1000 and maximum quantize identically. -/
theorem C7_clamp_caps_before_quantization_witness :
    gStd.shrink_to_fit (10 + 1000) = gStd.shrink_to_fit 10 :=
  C7_clamp_caps_before_quantization gStd (10 + 1000)
    (by norm_num [gStd]) (by norm_num [gStd])

/-- C2: the Sine variant equals shrink_to_fit applied to the clamp of
amplitude * (s + n), with the noise n added to the raw sinusoid value s
inside the amplitude multiplication before clamping; the other four
variants instead add n * amplitude after computing their base waveform. -/
theorem C2_sine_noise_inside (g : SignalGen) (s n time t : ℚ) :
    g.sineCalculate s n =
      (rustClamp (g.amplitude * (s + n)) g.minimum g.maximum).bind
        g.shrink_to_fit ∧
    g.squareCalculate time n =
      (rustClamp ((if nanLt (fmodQ (time + g.phase) g.period) (g.period / 2)
          then g.amplitude else -g.amplitude) + n * g.amplitude)
        g.minimum g.maximum).bind g.shrink_to_fit ∧
    (fmodQ (time + g.phase) g.period = some t →
      g.triangleCalculate time n =
        (rustClamp ((if t < 1/4 then g.amplitude * t * 4
            else if t < 3/4 then g.amplitude * (1 - (t - 1/4) * 4)
            else g.amplitude * (t - 3/4) * 4 - g.amplitude) + n * g.amplitude)
          g.minimum g.maximum).bind g.shrink_to_fit) ∧
    (fmodQ (time + g.phase) g.period = some t →
      g.sawtoothCalculate time n =
        (rustClamp (g.amplitude * (t * 2 - 1) + n * g.amplitude)
          g.minimum g.maximum).bind g.shrink_to_fit) ∧
    g.constantCalculate n =
      (rustClamp (g.amplitude + n * g.amplitude) g.minimum g.maximum).bind
        g.shrink_to_fit := by
  refine ⟨rfl, rfl, ?_, ?_, rfl⟩
  · intro h
    simp only [SignalGen.triangleCalculate, h]
  · intro h
    simp only [SignalGen.sawtoothCalculate, h]

/-- A well-formed Square-scenario generator: minimum -1, maximum 1,
amplitude 1, period 2, phase 0, 8 signed bits, scale 1, offset 0. -/
def gSq : SignalGen :=
  { minimum := -1, maximum := 1, amplitude := 1, period := 2, phase := 0,
    num_bits := 8, is_signed := true, scale := 1, offset := 0 }

/-- Witness for C2: concrete evaluations on gSq with sine oracle 1 and
noise draw 0, including a Triangle instance with a defined remainder. -/
theorem C2_sine_noise_inside_witness :
    gSq.sineCalculate 1 0 = some 1 ∧ gSq.triangleCalculate 0 0 = some 0 := by
  obtain ⟨hsi, hsq, htr, hsa, hco⟩ := C2_sine_noise_inside gSq 1 0 0 0
  constructor
  · rw [hsi]
    norm_num [rustClamp, SignalGen.shrink_to_fit, gSq, roundAway, Option.bind]
  · rw [htr (by norm_num [fmodQ, truncQ, gSq])]
    norm_num [rustClamp, SignalGen.shrink_to_fit, gSq, roundAway, Option.bind]

/-- A non-Constant generator constructed with period 0: minimum -1,
maximum 1, amplitude 1, phase 0, 8 signed bits, scale 1, offset 0. -/
def gPeriod0 : SignalGen :=
  { minimum := -1, maximum := 1, amplitude := 1, period := 0, phase := 0,
    num_bits := 8, is_signed := true, scale := 1, offset := 0 }

/-- C3 counterexample: a Square generator with period 0 is constructed
without any error and calculate silently produces a value: the remainder by
zero is NaN, the NaN comparison is false, so the branch yields minus
amplitude and quantization returns minus one. -/
theorem C3_counterexample :
    gPeriod0.period = 0 ∧ gPeriod0.squareCalculate 0 0 = some (-1) := by
  refine ⟨rfl, ?_⟩
  norm_num [SignalGen.squareCalculate, gPeriod0, fmodQ, nanLt, rustClamp,
    SignalGen.shrink_to_fit, roundAway, Option.bind]

/-- C3 amended: no configuration check exists; for every Square generator
with period 0 and every time and noise draw, calculate silently computes
the quantized clamp of minus amplitude plus noise times amplitude, because
the float remainder by zero is NaN and its comparison with period / 2 is
false. -/
theorem C3_period_zero_silently_computes (g : SignalGen) (time n : ℚ)
    (h : g.period = 0) :
    g.squareCalculate time n =
      (rustClamp (-g.amplitude + n * g.amplitude) g.minimum g.maximum).bind
        g.shrink_to_fit := by
  simp only [SignalGen.squareCalculate, h]
  norm_num [fmodQ, nanLt]

/-- Witness for C3 amended: the period-0 generator at time 5 with noise
draw 0 silently evaluates to some minus one. -/
theorem C3_period_zero_silently_computes_witness :
    gPeriod0.squareCalculate 5 0 = some (-1) := by
  have h := C3_period_zero_silently_computes gPeriod0 5 0 rfl
  rw [h]
  norm_num [gPeriod0, rustClamp, SignalGen.shrink_to_fit, roundAway,
    Option.bind]

/-- C6 counterexample: the draw 0 is a valid unit draw and produces exactly
minus one tenth, so the noise value is not strictly greater than minus one
tenth: the interval is closed at its lower end. -/
theorem C6_counterexample :
    (0 : ℚ) ≤ 0 ∧ (0 : ℚ) < 1 ∧ noise 0 = -(1/10) ∧
      ¬(-(1/10) < noise 0) := by
  norm_num [noise, NOISE]

/-- C6 amended: for every unit draw r with 0 <= r < 1, the noise value lies
in the half-open interval from minus one tenth inclusive to one tenth
exclusive. -/
theorem C6_noise_halfopen (r : ℚ) (h0 : 0 ≤ r) (h1 : r < 1) :
    -(1/10) ≤ noise r ∧ noise r < 1/10 := by
  unfold noise NOISE
  constructor
  · nlinarith
  · nlinarith

/-- Witness for C6 amended at the draw one half. -/
theorem C6_noise_halfopen_witness :
    -(1/10 : ℚ) ≤ noise (1/2) ∧ noise (1/2) < 1/10 :=
  C6_noise_halfopen (1/2) (by norm_num) (by norm_num)
